import Mathlib

/-!
# Boot time resolution of the kubelet (`pkg/kubelet/util/boottime_util_linux.go`)

A shallow embedding of `GetBootTime`, `getBootTimeWithProcUptime` and
`getBootTimeWithSysinfo`, together with the library operations they call
(`strings.Cut`, `time.Time.Add`, `time.Time.Truncate`, float64 arithmetic,
int64 `Duration` arithmetic), followed by theorems about them.

The outside world is split in two parts.

* `Host` holds what the machine answers: the successive readings of
  `time.Now()`, the result of `os.ReadFile`, the result of `unix.Sysinfo`,
  the behaviour of `strconv.ParseFloat`, and the implementation-dependent
  result of converting a float64 that does not fit into an int64.
* `World` is the mutable part that is threaded through the program: how many
  times the clock, the file and `unix.Sysinfo` were consulted and which
  records were handed to `klog.ErrorS`.
-/

namespace BootTime

/-! ## Strings and errors -/

/-- Go strings and byte slices, as lists of characters. -/
abbrev GoString := List Char

/-- Go `error` values. `external` and `numError` are errors made by the
operating system or the standard library; the two `errorf` shapes are the
values built by `fmt.Errorf`, with and without a wrapped error (`%w`). -/
inductive GoError where
  | external (text : String)
  | numError (func : String) (num : GoString) (err : String)
  | errorfPlain (format : String) (args : List GoString)
  | errorfWrap (format : String) (args : List GoString) (inner : GoError)
  deriving DecidableEq, Repr

/-- The function `strings.Index`: position of the first occurrence of `sep`. -/
def Index : GoString → GoString → Option Nat
  | [], sep => if sep.isPrefixOf [] then some 0 else none
  | c :: cs, sep =>
    if sep.isPrefixOf (c :: cs) then some 0
    else (Index cs sep).map (fun i => i + 1)

/-- The function `strings.Cut`: slices `s` around the first instance of `sep`,
returning the text before and after `sep` and whether `sep` appears in `s`.
If `sep` does not appear, it returns `s`, the empty string and `false`. -/
def Cut (s sep : GoString) : GoString × GoString × Bool :=
  match Index s sep with
  | some i => (s.take i, s.drop (i + sep.length), true)
  | none => (s, [], false)

/-! ## Durations and instants -/

/-- Two's complement wrap-around of an integer to the int64 range. -/
def wrapInt64 (x : Int) : Int := (x + 2 ^ 63) % 2 ^ 64 - 2 ^ 63

/-- The least int64. -/
def minInt64 : Int := -(2 ^ 63)

/-- A `time.Duration`: an int64 count of nanoseconds. -/
abbrev Duration := Int

/-- The constant `time.Second`. -/
def Second : Duration := 1000000000

/-- Unary minus on `time.Duration` (int64, wrapping). -/
def negDuration (d : Duration) : Duration := wrapInt64 (-d)

/-- Multiplication on `time.Duration` (int64, wrapping). -/
def mulDuration (a b : Duration) : Duration := wrapInt64 (a * b)

/-- A `time.Time`: an instant, as the count of nanoseconds since the zero
time (January 1, year 1, 00:00:00 UTC). The count is an unbounded integer:
readings of `time.Now()` are centuries away from the limits of the library
representation, and a `Duration` spans at most about 292 years. -/
structure Time where
  nanos : Int
  deriving DecidableEq, Repr

/-- The zero value `time.Time{}`. -/
def Time.zero : Time := ⟨0⟩

/-- The method `Time.Add`: the instant `t + d`. -/
def Time.Add (t : Time) (d : Duration) : Time := ⟨t.nanos + d⟩

/-- The method `Time.Truncate`: `t` rounded down to a multiple of `d` since the
zero time; for `d <= 0` the instant is returned unchanged. -/
def Time.Truncate (t : Time) (d : Duration) : Time :=
  if d ≤ 0 then t else ⟨t.nanos - t.nanos % d⟩

/-! ## float64 -/

/-- An IEEE 754 binary64 value. `finite neg mant exp` is the number
`(-1)^neg * mant * 2^exp`. -/
inductive Float64 where
  | finite (neg : Bool) (mant : Nat) (exp : Int)
  | inf (neg : Bool)
  | nan
  deriving DecidableEq, Repr

/-- Doubles the denominator until `num / den < 2^53`, counting the steps in
the binary exponent. -/
def scaleDown : Nat → Nat → Nat → Int → Nat × Int
  | 0, _, den, e => (den, e)
  | fuel + 1, num, den, e =>
    if 2 ^ 53 * den ≤ num then scaleDown fuel num (2 * den) (e + 1) else (den, e)

/-- Doubles the numerator until `2^52 <= num / den`, stopping at the least
binary exponent `-1074` of the subnormal numbers. -/
def scaleUp : Nat → Nat → Nat → Int → Nat × Int
  | 0, num, _, e => (num, e)
  | fuel + 1, num, den, e =>
    if num < 2 ^ 52 * den ∧ -1074 < e then scaleUp fuel (2 * num) den (e - 1) else (num, e)

/-- The quotient `num / den` rounded to the nearest integer, ties to even. -/
def roundHalfEven (num den : Nat) : Nat :=
  let q := num / den
  let r := num % den
  if 2 * r < den then q
  else if den < 2 * r then q + 1
  else if q % 2 = 0 then q else q + 1

/-- The binary64 value nearest to `(-1)^neg * num / den` (round to nearest,
ties to even; overflow gives an infinity). -/
def Float64.ofRat (neg : Bool) (num den : Nat) : Float64 :=
  if num = 0 then .finite neg 0 0
  else
    let d := scaleDown num num den 0
    let n := scaleUp (1200 + den) num d.1 d.2
    let m := roundHalfEven n.1 d.1
    if 971 < n.2 ∨ (n.2 = 971 ∧ 2 ^ 53 ≤ m) then .inf neg else .finite neg m n.2

/-- The conversion `float64(i)` of an integer. -/
def Float64.ofInt (i : Int) : Float64 := Float64.ofRat (decide (i < 0)) i.natAbs 1

/-- The float64 product `x * y`. -/
def Float64.mul : Float64 → Float64 → Float64
  | .nan, _ => .nan
  | _, .nan => .nan
  | .inf a, .inf b => .inf (xor a b)
  | .inf a, .finite b m _ => if m = 0 then .nan else .inf (xor a b)
  | .finite a m _, .inf b => if m = 0 then .nan else .inf (xor a b)
  | .finite a m e, .finite b n f =>
    Float64.ofRat (xor a b) (m * n * 2 ^ (e + f).toNat) (2 ^ (-(e + f)).toNat)

/-- The integer part of a finite float64, rounding toward zero. -/
def truncFinite (neg : Bool) (mant : Nat) (exp : Int) : Int :=
  let a : Nat := mant * 2 ^ exp.toNat / 2 ^ (-exp).toNat
  if neg then -(a : Int) else (a : Int)

/-- The conversion `int64(x)` of a float64: the fraction is discarded; when
the value does not fit (or is not a number) the language leaves the result to
the implementation, here the function `other`. -/
def Float64.toInt64 (other : Float64 → Int) (x : Float64) : Int :=
  match x with
  | .finite neg mant exp =>
    let t := truncFinite neg mant exp
    if minInt64 ≤ t ∧ t < 2 ^ 63 then t else wrapInt64 (other x)
  | _ => wrapInt64 (other x)

/-! ## The host and the world -/

/-- What the machine answers to the program. -/
structure Host where
  /-- The `n`-th reading of `time.Now()`. -/
  clock : Nat → Time
  /-- The result of `os.ReadFile` on a path. -/
  readFile : String → Except GoError GoString
  /-- The result of `strconv.ParseFloat(s, 64)`. -/
  parseFloat : GoString → Except GoError Float64
  /-- The result of `unix.Sysinfo`: the field `info.Uptime`, or the error. -/
  sysinfoUptime : Except GoError Int
  /-- The implementation-dependent result of `int64(x)` when `x` does not fit. -/
  float64Other : Float64 → Int

/-- The observable effects of the program so far. -/
structure World where
  /-- Number of calls of `time.Now()`. -/
  clockReads : Nat
  /-- Number of calls of `os.ReadFile`. -/
  fileReads : Nat
  /-- Number of calls of `unix.Sysinfo`. -/
  sysinfoCalls : Nat
  /-- The records handed to `klog.ErrorS`, oldest first. -/
  diagnostics : List (GoError × String)
  deriving DecidableEq, Repr

/-- The call `time.Now()`. -/
def timeNow (h : Host) (w : World) : Time × World :=
  (h.clock w.clockReads, { w with clockReads := w.clockReads + 1 })

/-- The call `os.ReadFile(path)`. -/
def osReadFile (h : Host) (path : String) (w : World) : Except GoError GoString × World :=
  (h.readFile path, { w with fileReads := w.fileReads + 1 })

/-- The call `unix.Sysinfo(&info)`, returning `info.Uptime` on success. -/
def unixSysinfo (h : Host) (w : World) : Except GoError Int × World :=
  (h.sysinfoUptime, { w with sysinfoCalls := w.sysinfoCalls + 1 })

/-- The call `klog.ErrorS(err, msg)`. -/
def klogErrorS (err : GoError) (msg : String) (w : World) : World :=
  { w with diagnostics := w.diagnostics ++ [(err, msg)] }

/-! ## The program -/

/-- The expression `time.Duration(uptime * float64(time.Second))`. -/
def uptimeDuration (h : Host) (uptime : Float64) : Duration :=
  Float64.toInt64 h.float64Other (uptime.mul (Float64.ofInt Second))

/-- The expression `-time.Duration(info.Uptime) * time.Second`. -/
def sysinfoOffset (uptime : Int) : Duration :=
  mulDuration (negDuration (wrapInt64 uptime)) Second

/-- The function `getBootTimeWithProcUptime`. -/
def getBootTimeWithProcUptime (h : Host) (w : World) : (Time × Option GoError) × World :=
  let now := timeNow h w
  let currentTime := now.1
  let rd := osReadFile h "/proc/uptime" now.2
  match rd.1 with
  | .error err =>
    ((Time.zero, some (.errorfWrap "error getting system uptime: %w" [] err)), rd.2)
  | .ok raw =>
    let c := Cut raw [' ']
    let uptimeStr := c.1
    let found := c.2.2
    if !found then
      ((Time.zero, some (.errorfPlain "unexpected value from /proc/uptime: %s" [raw])), rd.2)
    else
      match h.parseFloat uptimeStr with
      | .error err =>
        ((Time.zero, some (.errorfWrap "error parsing uptime %s: %w" [uptimeStr] err)), rd.2)
      | .ok uptime =>
        (((currentTime.Add (negDuration (uptimeDuration h uptime))).Truncate Second, none), rd.2)

/-- The function `getBootTimeWithSysinfo`. -/
def getBootTimeWithSysinfo (h : Host) (w : World) : (Time × Option GoError) × World :=
  let now := timeNow h w
  let currentTime := now.1
  let si := unixSysinfo h now.2
  match si.1 with
  | .error err =>
    ((Time.zero, some (.errorfWrap "error getting system uptime: %w" [] err)), si.2)
  | .ok uptime =>
    (((currentTime.Add (sysinfoOffset uptime)).Truncate Second, none), si.2)

/-- The message of the diagnostic emitted when falling back. -/
def fallbackMessage : String :=
  "Failed to get boot time from /proc/uptime. Will retry with unix.Sysinfo"

/-- The function `GetBootTime`. -/
def GetBootTime (h : Host) (w : World) : (Time × Option GoError) × World :=
  let p := getBootTimeWithProcUptime h w
  match p.1.2 with
  | some err => getBootTimeWithSysinfo h (klogErrorS err fallbackMessage p.2)
  | none => ((p.1.1, none), p.2)

/-! ## A concrete host -/

/-- The value of a decimal digit. -/
def digitVal (c : Char) : Option Nat :=
  if 48 ≤ c.toNat ∧ c.toNat ≤ 57 then some (c.toNat - 48) else none

/-- Reads a maximal run of decimal digits: the accumulated value, the number
of digits read and the remaining text. -/
def readDigits : GoString → Nat → Nat → Nat × Nat × GoString
  | [], acc, n => (acc, n, [])
  | c :: cs, acc, n =>
    match digitVal c with
    | some d => readDigits cs (10 * acc + d) (n + 1)
    | none => (acc, n, c :: cs)

/-- An optional leading sign. -/
def readSign : GoString → Bool × GoString
  | '+' :: t => (false, t)
  | '-' :: t => (true, t)
  | s => (false, s)

/-- The function `strconv.ParseFloat(s, 64)` on plain decimal literals: an
optional sign, digits, and an optional point followed by digits, with at
least one digit in all. The result is the nearest float64; a literal that
rounds to an infinity is a range error. Exponents, hexadecimal literals,
underscores, infinities and NaN are outside this fragment, and the model
answers with a syntax error for them. -/
def parseFloatDecimal (s : GoString) : Except GoError Float64 :=
  let sg := readSign s
  let ip := readDigits sg.2 0 0
  let fp : Nat × Nat × GoString :=
    match ip.2.2 with
    | '.' :: t => readDigits t ip.1 0
    | r => (ip.1, 0, r)
  if ip.2.1 + fp.2.1 = 0 ∨ fp.2.2 ≠ [] then
    .error (.numError "ParseFloat" s "invalid syntax")
  else
    match Float64.ofRat sg.1 fp.1 (10 ^ fp.2.1) with
    | .inf _ => .error (.numError "ParseFloat" s "value out of range")
    | x => .ok x

/-- A host with a clock given by `clock`, the given content of `/proc/uptime`
and answer of `unix.Sysinfo`, the decimal float parser, and the amd64
conversion of an unrepresentable float64 (the least int64). -/
def decimalHost (clock : Nat → Time) (uptime : Except GoError GoString)
    (sys : Except GoError Int) : Host where
  clock := clock
  readFile := fun _ => uptime
  parseFloat := parseFloatDecimal
  sysinfoUptime := sys
  float64Other := fun _ => minInt64

/-- The world before the program has done anything. -/
def World.init : World := ⟨0, 0, 0, []⟩

/-- The instant computed by the primary strategy before truncation, for the
clock reading of world `w` and the parsed uptime `x`. -/
def bootInstant (h : Host) (w : World) (x : Float64) : Time :=
  (h.clock w.clockReads).Add (negDuration (uptimeDuration h x))

/-- The host `h` with the content of `/proc/uptime` replaced by `content`. -/
def Host.withUptime (h : Host) (content : GoString) : Host :=
  { h with readFile := fun _ => .ok content }

/-! ## Specification of the conversion of the uptime

The definitions of this section do not come from the program. They state, in
rational arithmetic, what IEEE 754 and the Go specification ask of the
expression `time.Duration(uptime * float64(time.Second))`: the float64 product
is the exact product rounded to nearest, ties to even, and the conversion to
int64 discards the fraction. The program's own float64 operations are compared
with them below. -/

/-- The rational number `m * 2^e`. -/
def dyadic (m : Nat) (e : Int) : ℚ := (m : ℚ) * (2 : ℚ) ^ e

/-- Round to nearest, ties to even, in binary64: `m * 2^e` is the rounding of
the positive rational `q`. The exponent `e` is the one of the binade of `q`
(`2^52 * 2^e <= q < 2^53 * 2^e`), or the least exponent `-1074` for a
subnormal `q`; `m * 2^e` is at most half a unit `2^e` away from `q`, and when
it is exactly half a unit away `m` is even. -/
def IsNearestEven (q : ℚ) (m : Nat) (e : Int) : Prop :=
  -1074 ≤ e ∧ (dyadic (2 ^ 52) e ≤ q ∨ e = -1074) ∧ q < dyadic (2 ^ 53) e ∧
  |dyadic m e - q| ≤ (2 : ℚ) ^ e / 2 ∧
  (|dyadic m e - q| = (2 : ℚ) ^ e / 2 → m % 2 = 0)

/-- The integer obtained from the number `(-1)^neg * q`, with `q >= 0`, by
discarding the fraction (rounding toward zero). -/
def towardZero (neg : Bool) (q : ℚ) : Int := if neg then -⌊q⌋ else ⌊q⌋

/-- Specification of `d` being `x * 10^9` nanoseconds converted to an integer
`Duration`: `d` is an int64; for a zero `x` it is zero; for a finite nonzero
`x = (-1)^neg * m * 2^e` the exact product `m * 2^e * 10^9` is rounded to
binary64 (nearest, ties to even) and, when the rounded product without its
fraction fits into an int64, `d` is that integer. When it does not fit, and
for an infinite `x` or a NaN, the language leaves `d` to the implementation. -/
def IsConvertedUptime (x : Float64) (d : Int) : Prop :=
  minInt64 ≤ d ∧ d < 2 ^ 63 ∧
  match x with
  | .finite neg m e =>
    (m = 0 → d = 0) ∧
    (m ≠ 0 → ∃ m1 e1, IsNearestEven (dyadic m e * 10 ^ 9) m1 e1 ∧
      (minInt64 ≤ towardZero neg (dyadic m1 e1) → towardZero neg (dyadic m1 e1) < 2 ^ 63 →
        d = towardZero neg (dyadic m1 e1)))
  | _ => True

/-! ## Sample hosts -/

/-- An instant whose sub-second part is a quarter of a second
(2024-01-01 00:00:00.25 UTC, counted from the zero time). -/
def sampleNow : Time := ⟨63839664000250000000⟩

/-- A host whose clock always reads `sampleNow`. -/
def sampleHost (uptime : Except GoError GoString) (sys : Except GoError Int) : Host :=
  decimalHost (fun _ => sampleNow) uptime sys

/-- A first run: the clock reads 0.40s past a whole second and the uptime
is 100.41s. -/
def jitterHostA : Host :=
  decimalHost (fun _ => ⟨63839664000400000000⟩) (.ok "100.41 200.00\n".toList) (.ok 100)

/-- A second run one second later: the clock reads 1.40s past the same whole
second and the uptime is 101.40s. -/
def jitterHostB : Host :=
  decimalHost (fun _ => ⟨63839664001400000000⟩) (.ok "101.40 201.90\n".toList) (.ok 101)

/-! ## Lemmas on the library operations -/

theorem Index_space_absent (s : GoString) (hs : ' ' ∉ s) : Index s [' '] = none := by
  induction s with
  | nil => simp [Index, List.isPrefixOf]
  | cons c cs ih =>
    have hc : ¬ (' ' = c) := fun e => hs (by rw [e]; exact List.mem_cons_self _ _)
    have hcs : ' ' ∉ cs := fun m => hs (List.mem_cons_of_mem _ m)
    simp [Index, List.isPrefixOf, hc, ih hcs]

theorem Index_space_present (f rest : GoString) (hf : ' ' ∉ f) :
    Index (f ++ ' ' :: rest) [' '] = some f.length := by
  induction f with
  | nil => simp [Index, List.isPrefixOf]
  | cons c cs ih =>
    have hc : ¬ (' ' = c) := fun e => hf (by rw [e]; exact List.mem_cons_self _ _)
    have hcs : ' ' ∉ cs := fun m => hf (List.mem_cons_of_mem _ m)
    simp [Index, List.isPrefixOf, hc, ih hcs]

theorem Cut_space_absent (s : GoString) (hs : ' ' ∉ s) : Cut s [' '] = (s, [], false) := by
  simp [Cut, Index_space_absent s hs]

theorem Cut_space_present (f rest : GoString) (hf : ' ' ∉ f) :
    Cut (f ++ ' ' :: rest) [' '] = (f, rest, true) := by
  simp [Cut, Index_space_present f rest hf]

/-- A text that contains a space splits at its first space. -/
theorem split_first_space (s : GoString) (hs : ' ' ∈ s) :
    ∃ f rest, s = f ++ ' ' :: rest ∧ ' ' ∉ f := by
  induction s with
  | nil => simp at hs
  | cons c cs ih =>
    by_cases hc : c = ' '
    · exact ⟨[], cs, by simp [hc], by simp⟩
    · have hcs : ' ' ∈ cs := by
        rcases List.mem_cons.mp hs with e | m
        · exact absurd e.symm hc
        · exact m
      obtain ⟨f, rest, e, hf⟩ := ih hcs
      refine ⟨c :: f, rest, by simp [e], ?_⟩
      intro m
      rcases List.mem_cons.mp m with e2 | m2
      · exact hc e2.symm
      · exact hf m2

theorem wrapInt64_range (x : Int) : minInt64 ≤ wrapInt64 x ∧ wrapInt64 x < 2 ^ 63 := by
  unfold wrapInt64 minInt64
  have h1 : 0 ≤ (x + 2 ^ 63) % 2 ^ 64 := Int.emod_nonneg _ (by norm_num)
  have h2 : (x + 2 ^ 63) % 2 ^ 64 < 2 ^ 64 := Int.emod_lt_of_pos _ (by norm_num)
  constructor <;> omega

theorem wrapInt64_of_range (x : Int) (h1 : minInt64 ≤ x) (h2 : x < 2 ^ 63) : wrapInt64 x = x := by
  unfold wrapInt64
  unfold minInt64 at h1
  rw [Int.emod_eq_of_lt (by omega) (by omega)]
  omega

theorem toInt64_range (other : Float64 → Int) (x : Float64) :
    minInt64 ≤ Float64.toInt64 other x ∧ Float64.toInt64 other x < 2 ^ 63 := by
  cases x with
  | finite neg mant exp =>
    simp only [Float64.toInt64]
    split_ifs with ht
    · exact ht
    · exact wrapInt64_range _
  | inf neg => exact wrapInt64_range _
  | nan => exact wrapInt64_range _

theorem uptimeDuration_range (h : Host) (x : Float64) :
    minInt64 ≤ uptimeDuration h x ∧ uptimeDuration h x < 2 ^ 63 :=
  toInt64_range _ _

theorem negDuration_of_ne_min (d : Int) (h1 : minInt64 ≤ d) (h2 : d < 2 ^ 63)
    (hne : d ≠ minInt64) : negDuration d = -d := by
  unfold negDuration
  apply wrapInt64_of_range
  · unfold minInt64 at *; omega
  · unfold minInt64 at *; omega

theorem negDuration_le_neg (d : Int) (h1 : minInt64 ≤ d) (h2 : d < 2 ^ 63) :
    (negDuration d : Int) ≤ -d := by
  by_cases hne : d = minInt64
  · subst hne
    decide
  · rw [negDuration_of_ne_min d h1 h2 hne]

theorem Truncate_Second_nanos (t : Time) :
    (t.Truncate Second).nanos = t.nanos - t.nanos % 1000000000 := by
  simp [Time.Truncate, Second]

/-- Truncation to the second is a floor. -/
theorem Truncate_Second_floor (t : Time) :
    (t.Truncate Second).nanos % 1000000000 = 0 ∧
    (t.Truncate Second).nanos ≤ t.nanos ∧ t.nanos < (t.Truncate Second).nanos + 1000000000 := by
  rw [Truncate_Second_nanos]
  omega

/-! ## The rounding loops end on their exit condition -/

theorem scaleDown_upper (fuel num den : Nat) (e : Int) (hb : num < 2 ^ 53 * den * 2 ^ fuel) :
    num < 2 ^ 53 * (scaleDown fuel num den e).1 := by
  induction fuel generalizing den e with
  | zero => simpa [scaleDown] using hb
  | succ k ih =>
    simp only [scaleDown]
    split_ifs with hc
    · apply ih
      calc num < 2 ^ 53 * den * 2 ^ (k + 1) := hb
        _ = 2 ^ 53 * (2 * den) * 2 ^ k := by ring
    · exact Nat.lt_of_not_le hc

theorem scaleDown_lower (fuel num den : Nat) (e : Int) :
    ((scaleDown fuel num den e).1 = den ∧ (scaleDown fuel num den e).2 = e) ∨
    2 ^ 52 * (scaleDown fuel num den e).1 ≤ num := by
  induction fuel generalizing den e with
  | zero => exact Or.inl ⟨rfl, rfl⟩
  | succ k ih =>
    simp only [scaleDown]
    split_ifs with hc
    · rcases ih (2 * den) (e + 1) with ⟨h1, _⟩ | h2
      · right
        rw [h1]
        omega
      · exact Or.inr h2
    · exact Or.inl ⟨rfl, rfl⟩

theorem scaleUp_upper (fuel num den : Nat) (e : Int) (hb : num < 2 ^ 53 * den) :
    (scaleUp fuel num den e).1 < 2 ^ 53 * den := by
  induction fuel generalizing num e with
  | zero => simpa [scaleUp] using hb
  | succ k ih =>
    simp only [scaleUp]
    split_ifs with hc
    · apply ih
      omega
    · exact hb

theorem scaleUp_lower (fuel num den : Nat) (e : Int)
    (hf : 2 ^ 52 * den ≤ num ∨ (-1074 ≤ e ∧ e + 1074 ≤ fuel)) :
    2 ^ 52 * den ≤ (scaleUp fuel num den e).1 ∨ (scaleUp fuel num den e).2 = -1074 := by
  induction fuel generalizing num e with
  | zero =>
    rcases hf with h1 | ⟨h2, h3⟩
    · exact Or.inl h1
    · right
      simp only [scaleUp]
      omega
  | succ k ih =>
    simp only [scaleUp]
    split_ifs with hc
    · apply ih
      rcases hf with h1 | ⟨h2, h3⟩
      · omega
      · right
        constructor
        · omega
        · push_cast at h3
          omega
    · by_cases h1 : num < 2 ^ 52 * den
      · right
        have h2 : ¬ (-1074 < e) := fun h => hc ⟨h1, h⟩
        rcases hf with h3 | ⟨h4, _⟩
        · omega
        · omega
      · left
        omega

/-- In `Float64.ofRat` the two scaling loops never run out of fuel: for a
positive quotient the scaled numerator ends below `2^53` times the scaled
denominator, and at least `2^52` times it unless the exponent has reached the
subnormal limit. -/
theorem ofRat_scaled (num den : Nat) (hd : 0 < den) :
    (scaleUp (1200 + den) num (scaleDown num num den 0).1 (scaleDown num num den 0).2).1 <
      2 ^ 53 * (scaleDown num num den 0).1 ∧
    (2 ^ 52 * (scaleDown num num den 0).1 ≤
        (scaleUp (1200 + den) num (scaleDown num num den 0).1 (scaleDown num num den 0).2).1 ∨
      (scaleUp (1200 + den) num (scaleDown num num den 0).1 (scaleDown num num den 0).2).2 =
        -1074) := by
  have hb : num < 2 ^ 53 * den * 2 ^ num := by
    have h1 : num < 2 ^ num := Nat.lt_two_pow num
    have h2 : 1 ≤ 2 ^ 53 * den := Nat.one_le_iff_ne_zero.mpr (by positivity)
    calc num < 2 ^ num := h1
      _ = 1 * 2 ^ num := (Nat.one_mul _).symm
      _ ≤ 2 ^ 53 * den * 2 ^ num := Nat.mul_le_mul_right _ h2
  refine ⟨scaleUp_upper _ _ _ _ (scaleDown_upper num num den 0 hb), ?_⟩
  apply scaleUp_lower
  rcases scaleDown_lower num num den 0 with ⟨_, h2⟩ | h3
  · right
    rw [h2]
    constructor
    · omega
    · push_cast
      omega
  · exact Or.inl h3

/-! ## The float64 operations meet their specification -/

theorem scaleDown_value (fuel num den : Nat) (e : Int) :
    e ≤ (scaleDown fuel num den e).2 ∧
    ((scaleDown fuel num den e).1 : ℚ) = (den : ℚ) * 2 ^ ((scaleDown fuel num den e).2 - e) := by
  induction fuel generalizing den e with
  | zero => simp [scaleDown]
  | succ k ih =>
    simp only [scaleDown]
    split_ifs with hc
    · obtain ⟨h1, h2⟩ := ih (2 * den) (e + 1)
      refine ⟨by omega, ?_⟩
      rw [h2]
      have he : (scaleDown k num (2 * den) (e + 1)).2 - e =
          ((scaleDown k num (2 * den) (e + 1)).2 - (e + 1)) + 1 := by ring
      rw [he, zpow_add_one₀ (by norm_num : (2 : ℚ) ≠ 0)]
      push_cast
      ring
    · simp

theorem scaleUp_value (fuel num den : Nat) (e : Int) :
    (scaleUp fuel num den e).2 ≤ e ∧ (-1074 ≤ e → -1074 ≤ (scaleUp fuel num den e).2) ∧
    ((scaleUp fuel num den e).1 : ℚ) = (num : ℚ) * 2 ^ (e - (scaleUp fuel num den e).2) := by
  induction fuel generalizing num e with
  | zero => simp [scaleUp]
  | succ k ih =>
    simp only [scaleUp]
    split_ifs with hc
    · obtain ⟨h1, h2, h3⟩ := ih (2 * num) (e - 1)
      refine ⟨by omega, fun _ => h2 (by omega), ?_⟩
      rw [h3]
      have he : e - (scaleUp k (2 * num) den (e - 1)).2 =
          ((e - 1) - (scaleUp k (2 * num) den (e - 1)).2) + 1 := by ring
      rw [he, zpow_add_one₀ (by norm_num : (2 : ℚ) ≠ 0)]
      push_cast
      ring
    · simp

theorem roundHalfEven_int (n d : Nat) (hd : 0 < d) :
    2 * |(roundHalfEven n d : ℤ) * d - n| ≤ d ∧
    (2 * |(roundHalfEven n d : ℤ) * d - n| = d → roundHalfEven n d % 2 = 0) := by
  have hdm : d * (n / d) + n % d = n := Nat.div_add_mod n d
  have hr : n % d < d := Nat.mod_lt n hd
  simp only [roundHalfEven]
  generalize n / d = q at *
  generalize n % d = r at *
  have hz : (d : ℤ) * (q : ℤ) + (r : ℤ) = (n : ℤ) := by exact_mod_cast hdm
  have e1 : (q : ℤ) * d - n = -(r : ℤ) := by linarith
  have e2 : ((q + 1 : ℕ) : ℤ) * d - n = (d : ℤ) - (r : ℤ) := by
    rw [Nat.cast_add, Nat.cast_one]; linarith
  split_ifs with h1 h2 h3
  · rw [e1, abs_neg, abs_of_nonneg (by positivity)]
    constructor
    · omega
    · intro h; omega
  · rw [e2, abs_of_nonneg (by omega)]
    constructor
    · omega
    · intro h; omega
  · rw [e1, abs_neg, abs_of_nonneg (by positivity)]
    constructor
    · omega
    · intro _; exact h3
  · rw [e2, abs_of_nonneg (by omega)]
    constructor
    · omega
    · intro _; omega

theorem roundHalfEven_spec (n d : Nat) (hd : 0 < d) :
    |(roundHalfEven n d : ℚ) - (n : ℚ) / d| ≤ 1 / 2 ∧
    (|(roundHalfEven n d : ℚ) - (n : ℚ) / d| = 1 / 2 → roundHalfEven n d % 2 = 0) := by
  obtain ⟨h1, h2⟩ := roundHalfEven_int n d hd
  have hdq : (0 : ℚ) < d := by exact_mod_cast hd
  have key : |(roundHalfEven n d : ℚ) - (n : ℚ) / d| =
      ((|(roundHalfEven n d : ℤ) * d - n| : ℤ) : ℚ) / d := by
    rw [Int.cast_abs]
    push_cast
    rw [← abs_of_pos hdq, ← abs_div, abs_of_pos hdq]
    congr 1
    field_simp
  rw [key]
  constructor
  · rw [div_le_iff₀ hdq]
    have h3 : (2 : ℚ) * ((|(roundHalfEven n d : ℤ) * d - n| : ℤ) : ℚ) ≤ (d : ℚ) := by
      exact_mod_cast h1
    linarith
  · intro h
    apply h2
    rw [div_eq_iff (ne_of_gt hdq)] at h
    have h3 : (2 : ℚ) * ((|(roundHalfEven n d : ℤ) * d - n| : ℤ) : ℚ) = (d : ℚ) := by
      linarith
    exact_mod_cast h3

theorem two_zpow_pos (e : Int) : (0 : ℚ) < (2 : ℚ) ^ e := by positivity

theorem ofRat_spec (neg : Bool) (num den : Nat) (hn : 0 < num) (hd : 0 < den) :
    ∃ m e, IsNearestEven ((num : ℚ) / den) m e ∧
      Float64.ofRat neg num den =
        (if 971 < e ∨ (e = 971 ∧ 2 ^ 53 ≤ m) then .inf neg else .finite neg m e) := by
  obtain ⟨hd1, hd2⟩ := scaleDown_value num num den 0
  obtain ⟨hs1, hs2⟩ := ofRat_scaled num den hd
  obtain ⟨hu1, hu2, hu3⟩ := scaleUp_value (1200 + den) num (scaleDown num num den 0).1
    (scaleDown num num den 0).2
  have hunf : Float64.ofRat neg num den =
      (if 971 < (scaleUp (1200 + den) num (scaleDown num num den 0).1
            (scaleDown num num den 0).2).2 ∨
          ((scaleUp (1200 + den) num (scaleDown num num den 0).1
            (scaleDown num num den 0).2).2 = 971 ∧
            2 ^ 53 ≤ roundHalfEven (scaleUp (1200 + den) num (scaleDown num num den 0).1
              (scaleDown num num den 0).2).1 (scaleDown num num den 0).1)
        then .inf neg
        else .finite neg (roundHalfEven (scaleUp (1200 + den) num (scaleDown num num den 0).1
              (scaleDown num num den 0).2).1 (scaleDown num num den 0).1)
            (scaleUp (1200 + den) num (scaleDown num num den 0).1
              (scaleDown num num den 0).2).2) := by
    unfold Float64.ofRat
    rw [if_neg (by omega)]
  generalize scaleUp (1200 + den) num (scaleDown num num den 0).1
    (scaleDown num num den 0).2 = nu at *
  generalize scaleDown num num den 0 = dn at *
  obtain ⟨n1, e2⟩ := nu
  obtain ⟨d1, e1⟩ := dn
  simp only at hd1 hd2 hs1 hs2 hu1 hu2 hu3 hunf
  simp only [sub_zero] at hd2
  refine ⟨roundHalfEven n1 d1, e2, ?_, hunf⟩
  have hdenq : (0 : ℚ) < den := by exact_mod_cast hd
  have hnumq : (0 : ℚ) < num := by exact_mod_cast hn
  have hd1q : (0 : ℚ) < d1 := by rw [hd2]; exact mul_pos hdenq (two_zpow_pos _)
  have hd1n : 0 < d1 := by exact_mod_cast hd1q
  have hp := two_zpow_pos e2
  have hq : (num : ℚ) / den = (n1 : ℚ) / d1 * 2 ^ e2 := by
    rw [hu3, hd2, zpow_sub₀ (by norm_num : (2 : ℚ) ≠ 0)]
    have h1 := two_zpow_pos e1
    field_simp
    ring
  obtain ⟨hr1, hr2⟩ := roundHalfEven_spec n1 d1 hd1n
  have hdiff : dyadic (roundHalfEven n1 d1) e2 - (num : ℚ) / den =
      ((roundHalfEven n1 d1 : ℚ) - (n1 : ℚ) / d1) * 2 ^ e2 := by
    rw [hq, dyadic]; ring
  have habs : |dyadic (roundHalfEven n1 d1) e2 - (num : ℚ) / den| =
      |(roundHalfEven n1 d1 : ℚ) - (n1 : ℚ) / d1| * 2 ^ e2 := by
    rw [hdiff, abs_mul, abs_of_pos hp]
  refine ⟨hu2 (by omega), ?_, ?_, ?_, ?_⟩
  · rcases hs2 with h | h
    · left
      rw [hq, dyadic]
      apply mul_le_mul_of_nonneg_right _ (le_of_lt hp)
      rw [le_div_iff₀ hd1q]
      exact_mod_cast h
    · exact Or.inr h
  · rw [hq, dyadic]
    apply mul_lt_mul_of_pos_right _ hp
    rw [div_lt_iff₀ hd1q]
    exact_mod_cast hs1
  · rw [habs]
    have := mul_le_mul_of_nonneg_right hr1 (le_of_lt hp)
    linarith
  · intro h
    apply hr2
    rw [habs] at h
    have h3 : (|(roundHalfEven n1 d1 : ℚ) - (n1 : ℚ) / d1| - 1 / 2) * 2 ^ e2 = 0 := by
      linarith
    rcases mul_eq_zero.mp h3 with h4 | h4
    · linarith
    · exact absurd h4 (ne_of_gt hp)

theorem two_zpow_split (k : Int) :
    (2 : ℚ) ^ k = ((2 ^ k.toNat : ℕ) : ℚ) / ((2 ^ (-k).toNat : ℕ) : ℚ) := by
  rcases le_or_lt 0 k with hk | hk
  · have h1 : (-k).toNat = 0 := by omega
    have h2 : (k.toNat : ℤ) = k := Int.toNat_of_nonneg hk
    rw [h1]
    simp only [pow_zero, Nat.cast_one, div_one, Nat.cast_pow, Nat.cast_ofNat]
    rw [← zpow_natCast, h2]
  · have h1 : k.toNat = 0 := by omega
    have h2 : ((-k).toNat : ℤ) = -k := Int.toNat_of_nonneg (by omega)
    rw [h1]
    simp only [pow_zero, Nat.cast_one, one_div, Nat.cast_pow, Nat.cast_ofNat]
    rw [← zpow_natCast, h2, zpow_neg, inv_inv]

theorem truncFinite_eq (neg : Bool) (m : Nat) (e : Int) :
    truncFinite neg m e = towardZero neg (dyadic m e) := by
  have hfl : ⌊dyadic m e⌋ = ((m * 2 ^ e.toNat / 2 ^ (-e).toNat : ℕ) : ℤ) := by
    rw [dyadic, two_zpow_split e, ← mul_div_assoc, ← Nat.cast_mul]
    exact Rat.floor_natCast_div_natCast _ _
  unfold truncFinite towardZero
  rw [hfl]

/-- The float64 product of two nonzero finite numbers is the exact product
rounded to nearest, ties to even, or an infinity on overflow. -/
theorem mul_finite_spec (a b : Bool) (m n : Nat) (e f : Int) (hm : m ≠ 0) (hn : n ≠ 0) :
    ∃ m1 e1, IsNearestEven (dyadic m e * dyadic n f) m1 e1 ∧
      (Float64.finite a m e).mul (Float64.finite b n f) =
        (if 971 < e1 ∨ (e1 = 971 ∧ 2 ^ 53 ≤ m1) then .inf (xor a b)
          else .finite (xor a b) m1 e1) := by
  have hnum : 0 < m * n * 2 ^ (e + f).toNat :=
    Nat.mul_pos (Nat.mul_pos (Nat.pos_of_ne_zero hm) (Nat.pos_of_ne_zero hn)) (by positivity)
  have hden : 0 < 2 ^ (-(e + f)).toNat := by positivity
  obtain ⟨m1, e1, h1, h2⟩ := ofRat_spec (xor a b) _ _ hnum hden
  refine ⟨m1, e1, ?_, h2⟩
  have hq : ((m * n * 2 ^ (e + f).toNat : ℕ) : ℚ) / ((2 ^ (-(e + f)).toNat : ℕ) : ℚ) =
      dyadic m e * dyadic n f := by
    rw [Nat.cast_mul, mul_div_assoc, ← two_zpow_split (e + f),
      zpow_add₀ (by norm_num : (2 : ℚ) ≠ 0), dyadic, dyadic]
    push_cast
    ring
  rw [← hq]
  exact h1

theorem ofInt_Second : Float64.ofInt Second = .finite false 8388608000000000 (-23) := by
  rfl

theorem dyadic_Second : dyadic 8388608000000000 (-23) = 10 ^ 9 := by
  norm_num [dyadic]

theorem nearestEven_large (q : ℚ) (m : Nat) (e : Int) (hne : IsNearestEven q m e)
    (he : 971 ≤ e) : (2 : ℚ) ^ (64 : ℕ) ≤ dyadic m e := by
  obtain ⟨_, h2, _, h4, _⟩ := hne
  have hp := two_zpow_pos e
  have h52 : dyadic (2 ^ 52) e ≤ q := by
    rcases h2 with h | h
    · exact h
    · omega
  have hge : (2 : ℚ) ^ (64 : ℤ) ≤ (2 : ℚ) ^ e := zpow_le_zpow_right₀ (by norm_num) (by omega)
  have h64 : (2 : ℚ) ^ (64 : ℤ) = (2 : ℚ) ^ (64 : ℕ) := by norm_cast
  have hab := (abs_le.mp h4).1
  have h5 : dyadic (2 ^ 52) e = (2 : ℚ) ^ (52 : ℕ) * 2 ^ e := by
    rw [dyadic]; push_cast; ring
  have h6 : (1 : ℚ) ≤ (2 : ℚ) ^ (52 : ℕ) - 1 / 2 := by norm_num
  have h7 : (2 : ℚ) ^ e ≤ ((2 : ℚ) ^ (52 : ℕ) - 1 / 2) * 2 ^ e := by
    have := mul_le_mul_of_nonneg_right h6 (le_of_lt hp)
    linarith
  rw [← h64]
  linarith

/-- The expression `time.Duration(uptime * float64(time.Second))` of the program
meets the specification `IsConvertedUptime`, for every host and every float64. -/
theorem uptimeDuration_converted (h : Host) (x : Float64) :
    IsConvertedUptime x (uptimeDuration h x) := by
  refine ⟨(uptimeDuration_range h x).1, (uptimeDuration_range h x).2, ?_⟩
  cases x with
  | inf neg => trivial
  | nan => trivial
  | finite neg m e =>
    refine ⟨?_, ?_⟩
    · intro hm
      subst hm
      simp [uptimeDuration, ofInt_Second, Float64.mul, Float64.ofRat, Float64.toInt64,
        truncFinite, minInt64]
    · intro hm
      obtain ⟨m1, e1, h1, h2⟩ := mul_finite_spec neg false m 8388608000000000 e (-23) hm
        (by norm_num)
      rw [dyadic_Second] at h1
      rw [Bool.xor_false] at h2
      refine ⟨m1, e1, h1, ?_⟩
      intro hlo hhi
      by_cases hov : 971 < e1 ∨ (e1 = 971 ∧ 2 ^ 53 ≤ m1)
      · exfalso
        have he : 971 ≤ e1 := by
          rcases hov with h3 | ⟨h3, _⟩ <;> omega
        have hbig := nearestEven_large _ m1 e1 h1 he
        have hfl : ((2 ^ 64 : ℤ) : ℚ) ≤ dyadic m1 e1 := by
          push_cast
          exact hbig
        have hfl2 : (2 ^ 64 : ℤ) ≤ ⌊dyadic m1 e1⌋ := Int.le_floor.mpr hfl
        unfold towardZero minInt64 at *
        cases neg
        · simp only [Bool.false_eq_true, if_false] at hhi
          omega
        · simp only [if_true] at hlo
          omega
      · unfold uptimeDuration
        rw [ofInt_Second, h2, if_neg hov]
        simp only [Float64.toInt64]
        rw [truncFinite_eq, if_pos ⟨hlo, hhi⟩]

/-- The predicate `IsNearestEven` determines the exponent and the
significand. -/
theorem nearestEven_unique (q : ℚ) (m n : Nat) (e f : Int)
    (h1 : IsNearestEven q m e) (h2 : IsNearestEven q n f) : e = f ∧ m = n := by
  have hexp : ∀ (a b : Nat) (i j : Int), IsNearestEven q a i → IsNearestEven q b j →
      ¬ i < j := by
    intro a b i j ha hb hlt
    obtain ⟨ha1, _, ha3, _, _⟩ := ha
    obtain ⟨_, hb2, _, _, _⟩ := hb
    have hb52 : dyadic (2 ^ 52) j ≤ q := by
      rcases hb2 with g | g
      · exact g
      · omega
    have hmono : (2 : ℚ) ^ (i + 1) ≤ (2 : ℚ) ^ j :=
      zpow_le_zpow_right₀ (by norm_num) (by omega)
    rw [zpow_add_one₀ (by norm_num : (2 : ℚ) ≠ 0)] at hmono
    have e1 : dyadic (2 ^ 53) i = (2 : ℚ) ^ (52 : ℕ) * ((2 : ℚ) ^ i * 2) := by
      rw [dyadic]; push_cast; ring
    have e2 : dyadic (2 ^ 52) j = (2 : ℚ) ^ (52 : ℕ) * (2 : ℚ) ^ j := by
      rw [dyadic]; push_cast; ring
    have hle : dyadic (2 ^ 53) i ≤ dyadic (2 ^ 52) j := by
      rw [e1, e2]
      exact mul_le_mul_of_nonneg_left hmono (by positivity)
    linarith
  have he : e = f := by
    have := hexp m n e f h1 h2
    have := hexp n m f e h2 h1
    omega
  subst he
  refine ⟨rfl, ?_⟩
  obtain ⟨_, _, _, a4, a5⟩ := h1
  obtain ⟨_, _, _, b4, b5⟩ := h2
  have hp := two_zpow_pos e
  have hm : dyadic m e - q = (m : ℚ) * 2 ^ e - q := rfl
  have hn : dyadic n e - q = (n : ℚ) * 2 ^ e - q := rfl
  rw [hm] at a4 a5
  rw [hn] at b4 b5
  by_contra hne
  have ha := abs_le.mp a4
  have hb := abs_le.mp b4
  rcases Nat.lt_or_gt_of_ne hne with hlt | hlt
  · have h1 : (m : ℚ) + 1 ≤ n := by exact_mod_cast hlt
    have h2 : ((m : ℚ) + 1) * 2 ^ e ≤ (n : ℚ) * 2 ^ e :=
      mul_le_mul_of_nonneg_right h1 (le_of_lt hp)
    have hn1 : (n : ℚ) * 2 ^ e - q = 2 ^ e / 2 := by linarith [ha.1, hb.2]
    have hm1 : (m : ℚ) * 2 ^ e - q = -(2 ^ e / 2) := by linarith [ha.1, hb.2]
    have hnn : (n : ℚ) = m + 1 := by
      have : ((n : ℚ) - (m + 1)) * 2 ^ e = 0 := by linarith
      rcases mul_eq_zero.mp this with g | g
      · linarith
      · exact absurd g (ne_of_gt hp)
    have hn2 : n = m + 1 := by exact_mod_cast hnn
    have en := b5 (by rw [hn1, abs_of_pos (by positivity)])
    have em := a5 (by rw [hm1, abs_neg, abs_of_pos (by positivity)])
    omega
  · have h1 : (n : ℚ) + 1 ≤ m := by exact_mod_cast hlt
    have h2 : ((n : ℚ) + 1) * 2 ^ e ≤ (m : ℚ) * 2 ^ e :=
      mul_le_mul_of_nonneg_right h1 (le_of_lt hp)
    have hm1 : (m : ℚ) * 2 ^ e - q = 2 ^ e / 2 := by linarith [hb.1, ha.2]
    have hn1 : (n : ℚ) * 2 ^ e - q = -(2 ^ e / 2) := by linarith [hb.1, ha.2]
    have hnn : (m : ℚ) = n + 1 := by
      have : ((m : ℚ) - (n + 1)) * 2 ^ e = 0 := by linarith
      rcases mul_eq_zero.mp this with g | g
      · linarith
      · exact absurd g (ne_of_gt hp)
    have hn2 : m = n + 1 := by exact_mod_cast hnn
    have em := a5 (by rw [hm1, abs_of_pos (by positivity)])
    have en := b5 (by rw [hn1, abs_neg, abs_of_pos (by positivity)])
    omega

/-! ## Lemmas on the two strategies -/

theorem procUptime_readError (h : Host) (w : World) (e : GoError)
    (hread : h.readFile "/proc/uptime" = .error e) :
    getBootTimeWithProcUptime h w =
      ((Time.zero, some (.errorfWrap "error getting system uptime: %w" [] e)),
        { w with clockReads := w.clockReads + 1, fileReads := w.fileReads + 1 }) := by
  simp [getBootTimeWithProcUptime, osReadFile, timeNow, hread]

theorem procUptime_noSpace (h : Host) (w : World) (raw : GoString)
    (hread : h.readFile "/proc/uptime" = .ok raw) (hs : ' ' ∉ raw) :
    getBootTimeWithProcUptime h w =
      ((Time.zero, some (.errorfPlain "unexpected value from /proc/uptime: %s" [raw])),
        { w with clockReads := w.clockReads + 1, fileReads := w.fileReads + 1 }) := by
  simp [getBootTimeWithProcUptime, osReadFile, timeNow, hread, Cut_space_absent raw hs]

theorem procUptime_parseError (h : Host) (w : World) (f rest : GoString) (e : GoError)
    (hread : h.readFile "/proc/uptime" = .ok (f ++ ' ' :: rest)) (hf : ' ' ∉ f)
    (hparse : h.parseFloat f = .error e) :
    getBootTimeWithProcUptime h w =
      ((Time.zero, some (.errorfWrap "error parsing uptime %s: %w" [f] e)),
        { w with clockReads := w.clockReads + 1, fileReads := w.fileReads + 1 }) := by
  simp [getBootTimeWithProcUptime, osReadFile, timeNow, hread, Cut_space_present f rest hf, hparse]

theorem procUptime_ok (h : Host) (w : World) (f rest : GoString) (x : Float64)
    (hread : h.readFile "/proc/uptime" = .ok (f ++ ' ' :: rest)) (hf : ' ' ∉ f)
    (hparse : h.parseFloat f = .ok x) :
    getBootTimeWithProcUptime h w =
      ((((h.clock w.clockReads).Add (negDuration (uptimeDuration h x))).Truncate Second, none),
        { w with clockReads := w.clockReads + 1, fileReads := w.fileReads + 1 }) := by
  simp [getBootTimeWithProcUptime, osReadFile, timeNow, hread, Cut_space_present f rest hf, hparse]

theorem procUptime_world (h : Host) (w : World) :
    (getBootTimeWithProcUptime h w).2 =
      { w with clockReads := w.clockReads + 1, fileReads := w.fileReads + 1 } := by
  unfold getBootTimeWithProcUptime
  simp only [osReadFile, timeNow]
  split
  · rfl
  · split
    · rfl
    · split <;> rfl

theorem sysinfo_error (h : Host) (w : World) (e : GoError) (hs : h.sysinfoUptime = .error e) :
    getBootTimeWithSysinfo h w =
      ((Time.zero, some (.errorfWrap "error getting system uptime: %w" [] e)),
        { w with clockReads := w.clockReads + 1, sysinfoCalls := w.sysinfoCalls + 1 }) := by
  simp [getBootTimeWithSysinfo, unixSysinfo, timeNow, hs]

theorem sysinfo_ok (h : Host) (w : World) (u : Int) (hs : h.sysinfoUptime = .ok u) :
    getBootTimeWithSysinfo h w =
      ((((h.clock w.clockReads).Add (sysinfoOffset u)).Truncate Second, none),
        { w with clockReads := w.clockReads + 1, sysinfoCalls := w.sysinfoCalls + 1 }) := by
  simp [getBootTimeWithSysinfo, unixSysinfo, timeNow, hs]

theorem sysinfoOffset_of_range (u : Int) (h0 : 0 ≤ u) (h1 : u ≤ 9223372036) :
    sysinfoOffset u = -(u * 1000000000) := by
  unfold sysinfoOffset mulDuration
  rw [wrapInt64_of_range u (by unfold minInt64; omega) (by omega)]
  rw [negDuration_of_ne_min u (by unfold minInt64; omega) (by omega) (by unfold minInt64; omega)]
  rw [wrapInt64_of_range _ (by unfold minInt64 Second; omega) (by unfold Second; omega)]
  unfold Second
  ring

/-- The four ways in which the primary strategy can end. -/
theorem procUptime_cases (h : Host) (w : World) :
    (∃ e, h.readFile "/proc/uptime" = .error e ∧
      (getBootTimeWithProcUptime h w).1 =
        (Time.zero, some (.errorfWrap "error getting system uptime: %w" [] e))) ∨
    (∃ raw, h.readFile "/proc/uptime" = .ok raw ∧ ' ' ∉ raw ∧
      (getBootTimeWithProcUptime h w).1 =
        (Time.zero, some (.errorfPlain "unexpected value from /proc/uptime: %s" [raw]))) ∨
    (∃ f rest e, h.readFile "/proc/uptime" = .ok (f ++ ' ' :: rest) ∧ ' ' ∉ f ∧
      h.parseFloat f = .error e ∧
      (getBootTimeWithProcUptime h w).1 =
        (Time.zero, some (.errorfWrap "error parsing uptime %s: %w" [f] e))) ∨
    (∃ f rest x, h.readFile "/proc/uptime" = .ok (f ++ ' ' :: rest) ∧ ' ' ∉ f ∧
      h.parseFloat f = .ok x ∧
      (getBootTimeWithProcUptime h w).1 =
        (((h.clock w.clockReads).Add (negDuration (uptimeDuration h x))).Truncate Second, none)) := by
  cases hr : h.readFile "/proc/uptime" with
  | error e =>
    exact Or.inl ⟨e, rfl, by rw [procUptime_readError h w e hr]⟩
  | ok raw =>
    by_cases hs : ' ' ∈ raw
    · obtain ⟨f, rest, hsplit, hf⟩ := split_first_space raw hs
      subst hsplit
      cases hp : h.parseFloat f with
      | error e =>
        exact Or.inr (Or.inr (Or.inl ⟨f, rest, e, rfl, hf, hp,
          by rw [procUptime_parseError h w f rest e hr hf hp]⟩))
      | ok x =>
        exact Or.inr (Or.inr (Or.inr ⟨f, rest, x, rfl, hf, hp,
          by rw [procUptime_ok h w f rest x hr hf hp]⟩))
    · exact Or.inr (Or.inl ⟨raw, rfl, hs, by rw [procUptime_noSpace h w raw hr hs]⟩)

theorem GetBootTime_of_primary_error (h : Host) (w : World) (err : GoError)
    (hfail : (getBootTimeWithProcUptime h w).1.2 = some err) :
    GetBootTime h w =
      getBootTimeWithSysinfo h (klogErrorS err fallbackMessage
        { w with clockReads := w.clockReads + 1, fileReads := w.fileReads + 1 }) := by
  unfold GetBootTime
  simp only [hfail, procUptime_world]

theorem GetBootTime_of_primary_ok (h : Host) (w : World)
    (hok : (getBootTimeWithProcUptime h w).1.2 = none) :
    GetBootTime h w =
      (((getBootTimeWithProcUptime h w).1.1, none),
        { w with clockReads := w.clockReads + 1, fileReads := w.fileReads + 1 }) := by
  unfold GetBootTime
  simp only [hok, procUptime_world]

theorem Time.eq_of_nanos (a b : Time) (hab : a.nanos = b.nanos) : a = b := by
  cases a
  cases b
  simp only [Time.mk.injEq]
  exact hab

theorem parseFloatDecimal_empty :
    parseFloatDecimal [] = .error (.numError "ParseFloat" [] "invalid syntax") := by
  rfl

/-! ## The claims -/

/-- C1 as stated fails when the converted uptime `D` is the least int64:
`-D` wraps around to `D`, so the program returns `now - 2^63ns` truncated, not
`now - D` truncated. The uptime `-9223372036.854775808` multiplies to exactly
`-2^63`, which fits into an int64; the uptime `10000000000` multiplies to
`10^19`, which does not fit and is converted to the least int64 on amd64. -/
theorem GetBootTime_procUptime_counterexample :
    parseFloatDecimal "-9223372036.854775808".toList =
      .ok (Float64.ofRat true 9223372036854775808 (10 ^ 9)) ∧
    (Float64.ofRat true 9223372036854775808 (10 ^ 9)).mul (Float64.ofInt Second) =
      .finite true 4503599627370496 11 ∧
    uptimeDuration (sampleHost (.ok "-9223372036.854775808 0".toList) (.ok 0))
      (Float64.ofRat true 9223372036854775808 (10 ^ 9)) = -9223372036854775808 ∧
    (GetBootTime (sampleHost (.ok "-9223372036.854775808 0".toList) (.ok 0)) World.init).1 =
      (⟨54616291963000000000⟩, none) ∧
    (Time.mk (sampleNow.nanos - (-9223372036854775808))).Truncate Second =
      ⟨73063036037000000000⟩ ∧
    (GetBootTime (sampleHost (.ok "-9223372036.854775808 0".toList) (.ok 0)) World.init).1.1 ≠
      (Time.mk (sampleNow.nanos -
        uptimeDuration (sampleHost (.ok "-9223372036.854775808 0".toList) (.ok 0))
          (Float64.ofRat true 9223372036854775808 (10 ^ 9)))).Truncate Second ∧
    parseFloatDecimal "10000000000".toList = .ok (Float64.ofRat false 10000000000 1) ∧
    uptimeDuration (sampleHost (.ok "10000000000 0".toList) (.ok 0))
      (Float64.ofRat false 10000000000 1) = -9223372036854775808 ∧
    (GetBootTime (sampleHost (.ok "10000000000 0".toList) (.ok 0)) World.init).1 =
      (⟨54616291963000000000⟩, none) ∧
    (GetBootTime (sampleHost (.ok "10000000000 0".toList) (.ok 0)) World.init).1.1 ≠
      (Time.mk (sampleNow.nanos -
        uptimeDuration (sampleHost (.ok "10000000000 0".toList) (.ok 0))
          (Float64.ofRat false 10000000000 1))).Truncate Second := by
  refine ⟨rfl, rfl, rfl, rfl, rfl, ?_, rfl, rfl, rfl, ?_⟩ <;> decide

/-- C1, amended: when `/proc/uptime` reads `f ++ " " ++ rest`, `f` has no space
and `strconv.ParseFloat` accepts `f` with value `x`, `GetBootTime` returns no
error and the instant `now.Add(-D).Truncate(time.Second)`, with `-D` computed
in wrapping int64 arithmetic. Here `D` is `int64(x * float64(time.Second))`,
which meets the specification `IsConvertedUptime`: the product `x * 10^9`
rounded to binary64, without its fraction, when that fits into an int64. The
result is `now - D` rounded down to the second whenever `D` is not the least
int64, and `now - 2^63ns` rounded down to the second when it is. The clock and
the file are read once, `unix.Sysinfo` is not called and nothing is logged. -/
theorem GetBootTime_procUptime (h : Host) (w : World) (f rest : GoString) (x : Float64)
    (hf : ' ' ∉ f)
    (hread : h.readFile "/proc/uptime" = .ok (f ++ [' '] ++ rest))
    (hparse : h.parseFloat f = .ok x) :
    GetBootTime h w =
      ((((h.clock w.clockReads).Add (negDuration (uptimeDuration h x))).Truncate Second, none),
        { w with clockReads := w.clockReads + 1, fileReads := w.fileReads + 1 }) ∧
    uptimeDuration h x = Float64.toInt64 h.float64Other (x.mul (Float64.ofInt Second)) ∧
    IsConvertedUptime x (uptimeDuration h x) ∧
    (uptimeDuration h x ≠ minInt64 →
      (GetBootTime h w).1.1.nanos =
        ((h.clock w.clockReads).nanos - uptimeDuration h x) -
          ((h.clock w.clockReads).nanos - uptimeDuration h x) % 1000000000) ∧
    (uptimeDuration h x = minInt64 →
      (GetBootTime h w).1.1.nanos =
        ((h.clock w.clockReads).nanos - 9223372036854775808) -
          ((h.clock w.clockReads).nanos - 9223372036854775808) % 1000000000) ∧
    (GetBootTime h w).2.sysinfoCalls = w.sysinfoCalls ∧
    (GetBootTime h w).2.diagnostics = w.diagnostics := by
  have hread2 : h.readFile "/proc/uptime" = .ok (f ++ ' ' :: rest) := by simpa using hread
  have hp := procUptime_ok h w f rest x hread2 hf hparse
  have hg := GetBootTime_of_primary_ok h w (by rw [hp])
  rw [hp] at hg
  refine ⟨hg, rfl, uptimeDuration_converted h x, ?_, ?_, by rw [hg], by rw [hg]⟩
  · intro hne
    rw [hg]
    have hr := uptimeDuration_range h x
    simp only [Truncate_Second_nanos, Time.Add]
    rw [negDuration_of_ne_min _ hr.1 hr.2 hne]
    rfl
  · intro hmin
    rw [hg, hmin]
    have hn : negDuration minInt64 = -9223372036854775808 := by decide
    simp only [Truncate_Second_nanos, Time.Add, hn]
    rfl

/-- Instance of the amended C1 at the content `"100.4 200.0"`: the converted
uptime is 100400000000ns. -/
theorem GetBootTime_procUptime_witness :
    GetBootTime (sampleHost (.ok "100.4 200.0".toList) (.ok 7)) World.init =
      (((((sampleHost (.ok "100.4 200.0".toList) (.ok 7)).clock World.init.clockReads).Add
          (negDuration (uptimeDuration (sampleHost (.ok "100.4 200.0".toList) (.ok 7))
            (Float64.ofRat false 1004 10)))).Truncate Second, none),
        { World.init with clockReads := World.init.clockReads + 1,
                          fileReads := World.init.fileReads + 1 }) ∧
    IsConvertedUptime (Float64.ofRat false 1004 10)
      (uptimeDuration (sampleHost (.ok "100.4 200.0".toList) (.ok 7))
        (Float64.ofRat false 1004 10)) ∧
    uptimeDuration (sampleHost (.ok "100.4 200.0".toList) (.ok 7))
      (Float64.ofRat false 1004 10) = 100400000000 ∧
    (GetBootTime (sampleHost (.ok "100.4 200.0".toList) (.ok 7)) World.init).1.1 =
      ⟨63839663899000000000⟩ :=
  ⟨(GetBootTime_procUptime (sampleHost (.ok "100.4 200.0".toList) (.ok 7)) World.init
      "100.4".toList "200.0".toList (Float64.ofRat false 1004 10) (by decide) rfl rfl).1,
    (GetBootTime_procUptime (sampleHost (.ok "100.4 200.0".toList) (.ok 7)) World.init
      "100.4".toList "200.0".toList (Float64.ofRat false 1004 10) (by decide) rfl rfl).2.2.1,
    rfl, by decide⟩

/-- C2: whenever the primary strategy fails with an error `err`, `GetBootTime`
logs `err` once through `klog.ErrorS` and then returns exactly what
`getBootTimeWithSysinfo` returns: the zero time and the wrapped `unix.Sysinfo`
error, or the instant computed from the `unix.Sysinfo` uptime. The returned
pair depends on the second clock reading and the `unix.Sysinfo` answer only,
so the primary error does not reach the caller. -/
theorem GetBootTime_fallback (h : Host) (w : World) (err : GoError)
    (hfail : (getBootTimeWithProcUptime h w).1.2 = some err) :
    GetBootTime h w =
      getBootTimeWithSysinfo h
        (klogErrorS err fallbackMessage (getBootTimeWithProcUptime h w).2) ∧
    (GetBootTime h w).1 =
      (match h.sysinfoUptime with
        | .error e => (Time.zero, some (.errorfWrap "error getting system uptime: %w" [] e))
        | .ok u => (((h.clock (w.clockReads + 1)).Add (sysinfoOffset u)).Truncate Second, none)) ∧
    (GetBootTime h w).2.diagnostics = w.diagnostics ++ [(err, fallbackMessage)] ∧
    (GetBootTime h w).2.sysinfoCalls = w.sysinfoCalls + 1 := by
  have hg := GetBootTime_of_primary_error h w err hfail
  refine ⟨by rw [hg, procUptime_world], ?_, ?_, ?_⟩
  · rw [hg]
    cases hs : h.sysinfoUptime with
    | error e => rw [sysinfo_error h _ e hs]
    | ok u => rw [sysinfo_ok h _ u hs]; rfl
  · rw [hg]
    cases hs : h.sysinfoUptime with
    | error e => rw [sysinfo_error h _ e hs]; rfl
    | ok u => rw [sysinfo_ok h _ u hs]; rfl
  · rw [hg]
    cases hs : h.sysinfoUptime with
    | error e => rw [sysinfo_error h _ e hs]; rfl
    | ok u => rw [sysinfo_ok h _ u hs]; rfl

/-- Instances of C2: the content `"12345"`, which has no separator, the content
`"abc 123"`, whose first field is not a number, and an unreadable file. -/
theorem GetBootTime_fallback_witness :
    (getBootTimeWithProcUptime (sampleHost (.ok "12345".toList) (.ok 100)) World.init).1.2 =
      some (.errorfPlain "unexpected value from /proc/uptime: %s" ["12345".toList]) ∧
    (GetBootTime (sampleHost (.ok "12345".toList) (.ok 100)) World.init).1 =
      (⟨63839663900000000000⟩, none) ∧
    (GetBootTime (sampleHost (.ok "12345".toList) (.ok 100)) World.init).2.diagnostics =
      [(.errorfPlain "unexpected value from /proc/uptime: %s" ["12345".toList],
        fallbackMessage)] ∧
    (GetBootTime (sampleHost (.ok "abc 123".toList) (.ok 100)) World.init).2.diagnostics =
      [(.errorfWrap "error parsing uptime %s: %w" ["abc".toList]
          (.numError "ParseFloat" "abc".toList "invalid syntax"), fallbackMessage)] ∧
    (GetBootTime (sampleHost (.error (.external "ENOENT")) (.error (.external "EFAULT")))
        World.init).1 =
      (Time.zero,
        some (.errorfWrap "error getting system uptime: %w" [] (.external "EFAULT"))) :=
  ⟨rfl,
    (GetBootTime_fallback (sampleHost (.ok "12345".toList) (.ok 100)) World.init
      (.errorfPlain "unexpected value from /proc/uptime: %s" ["12345".toList]) rfl).2.1,
    (GetBootTime_fallback (sampleHost (.ok "12345".toList) (.ok 100)) World.init
      (.errorfPlain "unexpected value from /proc/uptime: %s" ["12345".toList]) rfl).2.2.1,
    (GetBootTime_fallback (sampleHost (.ok "abc 123".toList) (.ok 100)) World.init
      (.errorfWrap "error parsing uptime %s: %w" ["abc".toList]
        (.numError "ParseFloat" "abc".toList "invalid syntax")) rfl).2.2.1,
    (GetBootTime_fallback (sampleHost (.error (.external "ENOENT")) (.error (.external "EFAULT")))
      World.init (.errorfWrap "error getting system uptime: %w" [] (.external "ENOENT"))
      rfl).2.1⟩

/-- C3: `GetBootTime` returns an error exactly when the primary strategy fails
and `unix.Sysinfo` fails too; the result is then the zero time together with
the `unix.Sysinfo` error wrapped as `error getting system uptime: %w`. A
returned error always comes with the zero time. -/
theorem GetBootTime_error_iff (h : Host) (w : World) :
    ((GetBootTime h w).1.2 ≠ none ↔
      ((getBootTimeWithProcUptime h w).1.2 ≠ none ∧ ∃ e, h.sysinfoUptime = .error e)) ∧
    (∀ e, (getBootTimeWithProcUptime h w).1.2 ≠ none → h.sysinfoUptime = .error e →
      (GetBootTime h w).1 =
        (Time.zero, some (.errorfWrap "error getting system uptime: %w" [] e))) ∧
    ((GetBootTime h w).1.2 ≠ none → (GetBootTime h w).1.1 = Time.zero) := by
  cases hp : (getBootTimeWithProcUptime h w).1.2 with
  | none =>
    have hg := GetBootTime_of_primary_ok h w hp
    refine ⟨?_, ?_, ?_⟩
    · rw [hg]; simp
    · intro e hne; exact absurd rfl hne
    · rw [hg]; simp
  | some err =>
    have hg := GetBootTime_of_primary_error h w err hp
    cases hs : h.sysinfoUptime with
    | error e =>
      rw [hg, sysinfo_error h _ e hs]
      refine ⟨by simp, ?_, by simp⟩
      intro e2 _ he2
      cases he2
      rfl
    | ok u =>
      rw [hg, sysinfo_ok h _ u hs]
      refine ⟨by simp, ?_, by simp⟩
      intro e2 _ he2
      cases he2

/-- C4: `getBootTimeWithProcUptime` returns an error exactly when reading
`/proc/uptime` fails, or the content has no space, or the text before the
first space is rejected by `strconv.ParseFloat`; every error comes with the
zero time; and when the content starts with a space the text handed to the
parser is the empty string. -/
theorem procUptime_error_iff (h : Host) (w : World) :
    ((getBootTimeWithProcUptime h w).1.2 ≠ none ↔
      ((∃ e, h.readFile "/proc/uptime" = .error e) ∨
       (∃ raw, h.readFile "/proc/uptime" = .ok raw ∧ ' ' ∉ raw) ∨
       (∃ f rest e, h.readFile "/proc/uptime" = .ok (f ++ [' '] ++ rest) ∧ ' ' ∉ f ∧
          h.parseFloat f = .error e))) ∧
    ((getBootTimeWithProcUptime h w).1.2 ≠ none →
      (getBootTimeWithProcUptime h w).1.1 = Time.zero) ∧
    (∀ rest, h.readFile "/proc/uptime" = .ok ([' '] ++ rest) →
      ((getBootTimeWithProcUptime h w).1.2 ≠ none ↔ ∃ e, h.parseFloat [] = .error e)) := by
  refine ⟨⟨?_, ?_⟩, ?_, ?_⟩
  · intro hne
    rcases procUptime_cases h w with ⟨e, hr, _⟩ | ⟨raw, hr, hs, _⟩ | ⟨f, rest, e, hr, hf, hp, _⟩ |
      ⟨f, rest, x, _, _, _, hres⟩
    · exact Or.inl ⟨e, hr⟩
    · exact Or.inr (Or.inl ⟨raw, hr, hs⟩)
    · exact Or.inr (Or.inr ⟨f, rest, e, by simpa using hr, hf, hp⟩)
    · rw [hres] at hne
      exact absurd rfl hne
  · rintro (⟨e, hr⟩ | ⟨raw, hr, hs⟩ | ⟨f, rest, e, hr, hf, hp⟩)
    · rw [procUptime_readError h w e hr]; simp
    · rw [procUptime_noSpace h w raw hr hs]; simp
    · rw [procUptime_parseError h w f rest e (by simpa using hr) hf hp]; simp
  · intro hne
    rcases procUptime_cases h w with ⟨e, _, hres⟩ | ⟨raw, _, _, hres⟩ |
      ⟨f, rest, e, _, _, _, hres⟩ | ⟨f, rest, x, _, _, _, hres⟩
    · rw [hres]
    · rw [hres]
    · rw [hres]
    · rw [hres] at hne
      exact absurd rfl hne
  · intro rest hr
    have hr2 : h.readFile "/proc/uptime" = .ok (([] : GoString) ++ ' ' :: rest) := by
      simpa using hr
    cases hp : h.parseFloat [] with
    | error e =>
      rw [procUptime_parseError h w [] rest e hr2 (by simp) hp]
      simp
    | ok x =>
      rw [procUptime_ok h w [] rest x hr2 (by simp) hp]
      simp

/-- C5: when `unix.Sysinfo` succeeds with an uptime `u` between 0 and
9223372036 seconds, `getBootTimeWithSysinfo` returns no error and the instant
`now - u` seconds rounded down to the second, which is `now` rounded down to
the second minus `u` seconds. -/
theorem getBootTimeWithSysinfo_ok (h : Host) (w : World) (u : Int)
    (h0 : 0 ≤ u) (h1 : u ≤ 9223372036) (hs : h.sysinfoUptime = .ok u) :
    (getBootTimeWithSysinfo h w).1 =
      ((Time.mk ((h.clock w.clockReads).nanos - u * 1000000000)).Truncate Second, none) ∧
    (getBootTimeWithSysinfo h w).1.1.nanos =
      ((h.clock w.clockReads).Truncate Second).nanos - u * 1000000000 := by
  rw [sysinfo_ok h w u hs, sysinfoOffset_of_range u h0 h1]
  refine ⟨?_, ?_⟩
  · simp only [Time.Add]
    rfl
  · simp only [Time.Add, Truncate_Second_nanos]
    omega

/-- Instance of C5 at the largest admitted uptime, 9223372036 seconds. -/
theorem getBootTimeWithSysinfo_ok_witness :
    (getBootTimeWithSysinfo (sampleHost (.error (.external "ENOENT")) (.ok 9223372036))
        World.init).1.1.nanos =
      ((sampleNow).Truncate Second).nanos - 9223372036 * 1000000000 :=
  (getBootTimeWithSysinfo_ok (sampleHost (.error (.external "ENOENT")) (.ok 9223372036))
    World.init 9223372036 (by decide) (by decide) rfl).2

/-- C6: every instant `r` that `GetBootTime` returns without error is a whole
number of seconds since the zero time, and with `now` the clock reading of the
strategy that answered and `delta` the `Duration` it handed to `Time.Add`
(the negated uptime), `r <= now + delta < r + 1s`. On the primary path `r` is
never later than `now - D` for the converted uptime `D`, and `delta = -D`
unless `D` is the least int64; on the secondary path `delta` is `-u` seconds
for an uptime `u` of at most 9223372036 seconds. -/
theorem GetBootTime_floor (h : Host) (w : World) (r : Time)
    (hok : (GetBootTime h w).1 = (r, none)) :
    r.nanos % 1000000000 = 0 ∧
    ∃ (now : Time) (delta : Int),
      (((getBootTimeWithProcUptime h w).1.2 = none ∧ now = h.clock w.clockReads ∧
          ∃ f rest x, h.readFile "/proc/uptime" = .ok (f ++ [' '] ++ rest) ∧ ' ' ∉ f ∧
            h.parseFloat f = .ok x ∧ delta = negDuration (uptimeDuration h x) ∧
            r.nanos ≤ now.nanos - uptimeDuration h x ∧
            (uptimeDuration h x ≠ minInt64 → delta = -uptimeDuration h x)) ∨
       ((getBootTimeWithProcUptime h w).1.2 ≠ none ∧ now = h.clock (w.clockReads + 1) ∧
          ∃ u, h.sysinfoUptime = .ok u ∧ delta = sysinfoOffset u ∧
            (0 ≤ u → u ≤ 9223372036 → delta = -(u * 1000000000)))) ∧
      r = (now.Add delta).Truncate Second ∧
      r.nanos ≤ now.nanos + delta ∧ now.nanos + delta < r.nanos + 1000000000 := by
  cases hp : (getBootTimeWithProcUptime h w).1.2 with
  | none =>
    have hg := GetBootTime_of_primary_ok h w hp
    rcases procUptime_cases h w with ⟨e, _, hres⟩ | ⟨raw, _, _, hres⟩ |
      ⟨f, rest, e, _, _, _, hres⟩ | ⟨f, rest, x, hr, hf, hpx, hres⟩
    · rw [hres] at hp; cases hp
    · rw [hres] at hp; cases hp
    · rw [hres] at hp; cases hp
    · rw [hg, hres] at hok
      have hr1 : r = ((h.clock w.clockReads).Add (negDuration (uptimeDuration h x))).Truncate
          Second := (congrArg Prod.fst hok).symm
      have hfl := Truncate_Second_floor ((h.clock w.clockReads).Add
        (negDuration (uptimeDuration h x)))
      rw [← hr1] at hfl
      have hrg := uptimeDuration_range h x
      have hle : (negDuration (uptimeDuration h x) : Int) ≤ -(uptimeDuration h x : Int) :=
        negDuration_le_neg _ hrg.1 hrg.2
      refine ⟨hfl.1, h.clock w.clockReads, negDuration (uptimeDuration h x),
        Or.inl ⟨rfl, rfl, f, rest, x, by simpa using hr, hf, hpx, rfl, ?_,
          fun hne => negDuration_of_ne_min _ hrg.1 hrg.2 hne⟩, hr1, hfl.2.1, hfl.2.2⟩
      have h2 : r.nanos ≤ (h.clock w.clockReads).nanos + negDuration (uptimeDuration h x) :=
        hfl.2.1
      linarith
  | some err =>
    have hg := GetBootTime_of_primary_error h w err hp
    cases hs : h.sysinfoUptime with
    | error e =>
      rw [hg, sysinfo_error h _ e hs] at hok
      cases hok
    | ok u =>
      rw [hg, sysinfo_ok h _ u hs] at hok
      have hr1 : r = ((h.clock (w.clockReads + 1)).Add (sysinfoOffset u)).Truncate Second :=
        (congrArg Prod.fst hok).symm
      have hfl := Truncate_Second_floor ((h.clock (w.clockReads + 1)).Add (sysinfoOffset u))
      rw [← hr1] at hfl
      exact ⟨hfl.1, h.clock (w.clockReads + 1), sysinfoOffset u,
        Or.inr ⟨by simp, rfl, u, rfl, rfl, fun h0 h1 => sysinfoOffset_of_range u h0 h1⟩,
        hr1, hfl.2.1, hfl.2.2⟩

/-- Instance of C6 where `now - D` lies half a second before the zero time:
the result is one second before the zero time, not the zero time. -/
theorem GetBootTime_floor_witness :
    (GetBootTime (decimalHost (fun _ => ⟨500000000⟩) (.ok "1 0".toList) (.ok 100))
      World.init).1 = (⟨-1000000000⟩, none) ∧
    (Time.mk (-1000000000)).nanos % 1000000000 = 0 :=
  ⟨rfl, (GetBootTime_floor (decimalHost (fun _ => ⟨500000000⟩) (.ok "1 0".toList) (.ok 100))
    World.init ⟨-1000000000⟩ (by rfl)).1⟩

/-- C7 as stated fails: at a clock reading with a sub-second part of 0.25s the
content `"100.4 200.0"` gives an instant one second before `T - 100s`
truncated to the second, and one second before the result for the content
`"100 200.0"`. -/
theorem GetBootTime_fraction_counterexample :
    (GetBootTime (sampleHost (.ok "100.4 200.0".toList) (.ok 0)) World.init).1 =
      (⟨63839663899000000000⟩, none) ∧
    (sampleNow.Add (-(100 * Second))).Truncate Second = ⟨63839663900000000000⟩ ∧
    (GetBootTime (sampleHost (.ok "100 200.0".toList) (.ok 0)) World.init).1 =
      (⟨63839663900000000000⟩, none) ∧
    (GetBootTime (sampleHost (.ok "100.4 200.0".toList) (.ok 0)) World.init).1.1 ≠
      (sampleNow.Add (-(100 * Second))).Truncate Second ∧
    (GetBootTime (sampleHost (.ok "100.4 200.0".toList) (.ok 0)) World.init).1 ≠
      (GetBootTime (sampleHost (.ok "100 200.0".toList) (.ok 0)) World.init).1 := by
  refine ⟨rfl, rfl, rfl, ?_, ?_⟩ <;> decide

/-- C7, amended: with the content `"100.4 200.0"`, parsed to the float64
nearest to 100.4, the result is `T - 100.4s` rounded down to the second. It
equals `T - 100s` rounded down to the second exactly when the sub-second part
of `T` is at least 0.4s, and is one second earlier otherwise. -/
theorem GetBootTime_fraction (h : Host) (w : World)
    (hread : h.readFile "/proc/uptime" = .ok "100.4 200.0".toList)
    (hparse : h.parseFloat "100.4".toList = .ok (Float64.ofRat false 1004 10)) :
    (GetBootTime h w).1 =
      ((Time.mk ((h.clock w.clockReads).nanos - 100400000000)).Truncate Second, none) ∧
    ((GetBootTime h w).1.1 = ((h.clock w.clockReads).Add (-(100 * Second))).Truncate Second ↔
      400000000 ≤ (h.clock w.clockReads).nanos % 1000000000) ∧
    ((h.clock w.clockReads).nanos % 1000000000 < 400000000 →
      (GetBootTime h w).1.1.nanos =
        (((h.clock w.clockReads).Add (-(100 * Second))).Truncate Second).nanos - 1000000000) := by
  have hd : uptimeDuration h (Float64.ofRat false 1004 10) = 100400000000 := by rfl
  have hn : negDuration 100400000000 = -100400000000 := by decide
  have hp := procUptime_ok h w "100.4".toList "200.0".toList (Float64.ofRat false 1004 10)
    hread (by decide) hparse
  have hg := GetBootTime_of_primary_ok h w (by rw [hp])
  rw [hp, hd, hn] at hg
  rw [hg]
  refine ⟨rfl, ?_, ?_⟩
  · simp only [Time.Add, Time.Truncate, Second]
    norm_num
    omega
  · intro hlt
    simp only [Time.Add, Time.Truncate, Second]
    norm_num
    omega

/-- Instance of the amended C7 at a clock reading with sub-second part 0.25s. -/
theorem GetBootTime_fraction_witness :
    (GetBootTime (sampleHost (.ok "100.4 200.0".toList) (.ok 0)) World.init).1 =
      ((Time.mk (((sampleHost (.ok "100.4 200.0".toList) (.ok 0)).clock
        World.init.clockReads).nanos - 100400000000)).Truncate Second, none) :=
  (GetBootTime_fraction (sampleHost (.ok "100.4 200.0".toList) (.ok 0)) World.init rfl rfl).1

/-- C8: only the text before the first space matters. For a text `f`
without space, the primary strategy, and so `GetBootTime`, returns the same
result and leaves the same world on the contents `f ++ " " ++ rest1` and
`f ++ " " ++ rest2`, the rest of the host being the same. -/
theorem procUptime_first_field_only (h : Host) (w : World) (f rest1 rest2 : GoString)
    (hf : ' ' ∉ f) :
    getBootTimeWithProcUptime (h.withUptime (f ++ [' '] ++ rest1)) w =
      getBootTimeWithProcUptime (h.withUptime (f ++ [' '] ++ rest2)) w ∧
    GetBootTime (h.withUptime (f ++ [' '] ++ rest1)) w =
      GetBootTime (h.withUptime (f ++ [' '] ++ rest2)) w := by
  have key : getBootTimeWithProcUptime (h.withUptime (f ++ [' '] ++ rest1)) w =
      getBootTimeWithProcUptime (h.withUptime (f ++ [' '] ++ rest2)) w := by
    have e1 : (h.withUptime (f ++ [' '] ++ rest1)).readFile "/proc/uptime" =
        .ok (f ++ ' ' :: rest1) := by simp [Host.withUptime]
    have e2 : (h.withUptime (f ++ [' '] ++ rest2)).readFile "/proc/uptime" =
        .ok (f ++ ' ' :: rest2) := by simp [Host.withUptime]
    cases hp : h.parseFloat f with
    | error e =>
      rw [procUptime_parseError _ w f rest1 e e1 hf hp,
        procUptime_parseError _ w f rest2 e e2 hf hp]
    | ok x =>
      rw [procUptime_ok _ w f rest1 x e1 hf hp, procUptime_ok _ w f rest2 x e2 hf hp]
      rfl
  refine ⟨key, ?_⟩
  unfold GetBootTime
  rw [key]
  rfl

/-- Instance of C8 with the field `100.4` followed by two different rests. -/
theorem procUptime_first_field_only_witness :
    GetBootTime ((sampleHost (.ok []) (.ok 5)).withUptime
        ("100.4".toList ++ [' '] ++ "200.0".toList)) World.init =
      GetBootTime ((sampleHost (.ok []) (.ok 5)).withUptime
        ("100.4".toList ++ [' '] ++ "not a number".toList)) World.init :=
  (procUptime_first_field_only (sampleHost (.ok []) (.ok 5)) World.init
    "100.4".toList "200.0".toList "not a number".toList (by decide)).2

/-- C9 as stated fails: on the contents `"100.5\n"` and `"100.5\t200.0\n"`,
whose first whitespace-delimited field `100.5` is accepted by the float
parser, the primary strategy fails for want of a space, and `GetBootTime`
falls back to `unix.Sysinfo`. And the value is not always `now - f` seconds
rounded down: the field `2.01` converts to 2009999999ns, so at a clock reading
9999999ns past a whole second the result is one second later than
`now - 2.01s` rounded down to the second. -/
theorem procUptime_whitespace_counterexample :
    parseFloatDecimal "100.5".toList = .ok (Float64.ofRat false 1005 10) ∧
    (getBootTimeWithProcUptime (sampleHost (.ok "100.5\n".toList) (.ok 100)) World.init).1 =
      (Time.zero,
        some (.errorfPlain "unexpected value from /proc/uptime: %s" ["100.5\n".toList])) ∧
    (getBootTimeWithProcUptime (sampleHost (.ok "100.5\t200.0\n".toList) (.ok 100))
        World.init).1 =
      (Time.zero,
        some (.errorfPlain "unexpected value from /proc/uptime: %s"
          ["100.5\t200.0\n".toList])) ∧
    (GetBootTime (sampleHost (.ok "100.5\n".toList) (.ok 100)) World.init).2.sysinfoCalls = 1 ∧
    (GetBootTime (sampleHost (.ok "100.5\t200.0\n".toList) (.ok 100))
        World.init).2.sysinfoCalls = 1 ∧
    parseFloatDecimal "2.01".toList = .ok (Float64.ofRat false 201 100) ∧
    uptimeDuration (decimalHost (fun _ => ⟨63839664000009999999⟩) (.ok "2.01 0".toList) (.ok 0))
      (Float64.ofRat false 201 100) = 2009999999 ∧
    (getBootTimeWithProcUptime
      (decimalHost (fun _ => ⟨63839664000009999999⟩) (.ok "2.01 0".toList) (.ok 0))
      World.init).1 = (⟨63839663998000000000⟩, none) ∧
    (Time.mk (63839664000009999999 - 2010000000)).Truncate Second =
      ⟨63839663997000000000⟩ :=
  ⟨rfl, rfl, rfl, rfl, rfl, rfl, rfl, rfl, rfl⟩

/-- C9, amended: the only field separator is the space character. When the
text before the first space is accepted by the float parser with value `x`, the
primary strategy returns `now.Add(-D).Truncate(time.Second)`, with `-D` in
wrapping int64 arithmetic and `D = int64(x * float64(time.Second))`, which
meets the specification `IsConvertedUptime` (the product `x * 10^9` rounded to
binary64, without its fraction, when that fits into an int64); this is
`now - D` rounded down to the second unless `D` is the least int64; and
`unix.Sysinfo` is not called. A content without any space, whatever tabs or
newlines it holds, makes the primary strategy fail, and `GetBootTime` then
calls `unix.Sysinfo` once. -/
theorem procUptime_space_delimited (h : Host) (w : World) :
    (∀ f rest x, ' ' ∉ f → h.readFile "/proc/uptime" = .ok (f ++ [' '] ++ rest) →
      h.parseFloat f = .ok x →
        (getBootTimeWithProcUptime h w).1 =
          (((h.clock w.clockReads).Add (negDuration (uptimeDuration h x))).Truncate Second,
            none) ∧
        uptimeDuration h x = Float64.toInt64 h.float64Other (x.mul (Float64.ofInt Second)) ∧
        IsConvertedUptime x (uptimeDuration h x) ∧
        (uptimeDuration h x ≠ minInt64 →
          (getBootTimeWithProcUptime h w).1.1.nanos =
            ((h.clock w.clockReads).nanos - uptimeDuration h x) -
              ((h.clock w.clockReads).nanos - uptimeDuration h x) % 1000000000) ∧
        (GetBootTime h w).1 = (getBootTimeWithProcUptime h w).1 ∧
        (GetBootTime h w).2.sysinfoCalls = w.sysinfoCalls) ∧
    (∀ raw, h.readFile "/proc/uptime" = .ok raw → ' ' ∉ raw →
        (getBootTimeWithProcUptime h w).1 =
          (Time.zero, some (.errorfPlain "unexpected value from /proc/uptime: %s" [raw])) ∧
        (GetBootTime h w).2.sysinfoCalls = w.sysinfoCalls + 1) := by
  constructor
  · intro f rest x hf hread hparse
    have hp := procUptime_ok h w f rest x (by simpa using hread) hf hparse
    have hg := GetBootTime_of_primary_ok h w (by rw [hp])
    refine ⟨by rw [hp], rfl, uptimeDuration_converted h x, ?_, by rw [hg, hp], by rw [hg]⟩
    intro hne
    rw [hp]
    have hr := uptimeDuration_range h x
    simp only [Truncate_Second_nanos, Time.Add]
    rw [negDuration_of_ne_min _ hr.1 hr.2 hne]
    rfl
  · intro raw hread hs
    have hp := procUptime_noSpace h w raw hread hs
    have hg := GetBootTime_of_primary_error h w _ (by rw [hp])
    refine ⟨by rw [hp], ?_⟩
    rw [hg]
    cases hsys : h.sysinfoUptime with
    | error e => rw [sysinfo_error h _ e hsys]; rfl
    | ok u => rw [sysinfo_ok h _ u hsys]; rfl

/-- Instance of the amended C9: the content `"2.01 0"` is split at its space,
and the content `"100.5\n"`, which has none, falls back. -/
theorem procUptime_space_delimited_witness :
    (getBootTimeWithProcUptime
      (decimalHost (fun _ => ⟨63839664000009999999⟩) (.ok "2.01 0".toList) (.ok 0))
      World.init).1 =
      ((((decimalHost (fun _ => ⟨63839664000009999999⟩) (.ok "2.01 0".toList) (.ok 0)).clock
          World.init.clockReads).Add
        (negDuration (uptimeDuration
          (decimalHost (fun _ => ⟨63839664000009999999⟩) (.ok "2.01 0".toList) (.ok 0))
          (Float64.ofRat false 201 100)))).Truncate Second, none) ∧
    (GetBootTime (sampleHost (.ok "100.5\n".toList) (.ok 100)) World.init).2.sysinfoCalls =
      World.init.sysinfoCalls + 1 :=
  ⟨((procUptime_space_delimited
      (decimalHost (fun _ => ⟨63839664000009999999⟩) (.ok "2.01 0".toList) (.ok 0))
      World.init).1 "2.01".toList "0".toList (Float64.ofRat false 201 100)
      (by decide) rfl rfl).1,
    ((procUptime_space_delimited (sampleHost (.ok "100.5\n".toList) (.ok 100))
      World.init).2 "100.5\n".toList rfl (by decide)).2⟩

/-- C10 as stated fails: two successful runs of the primary strategy whose
untruncated boot instants are 10 milliseconds apart, on either side of a whole
second, return instants one second apart. -/
theorem procUptime_stability_counterexample :
    jitterHostA.parseFloat "100.41".toList = .ok (Float64.ofRat false 10041 100) ∧
    jitterHostB.parseFloat "101.40".toList = .ok (Float64.ofRat false 10140 100) ∧
    bootInstant jitterHostA World.init (Float64.ofRat false 10041 100) =
      ⟨63839663899990000000⟩ ∧
    bootInstant jitterHostB World.init (Float64.ofRat false 10140 100) =
      ⟨63839663900000000000⟩ ∧
    (63839663900000000000 - 63839663899990000000 : Int) < 1000000000 ∧
    (getBootTimeWithProcUptime jitterHostA World.init).1 = (⟨63839663899000000000⟩, none) ∧
    (getBootTimeWithProcUptime jitterHostB World.init).1 = (⟨63839663900000000000⟩, none) ∧
    (getBootTimeWithProcUptime jitterHostA World.init).1.1 ≠
      (getBootTimeWithProcUptime jitterHostB World.init).1.1 := by
  refine ⟨rfl, rfl, rfl, rfl, by decide, rfl, rfl, by decide⟩

/-- C10, amended: two successful runs of the primary strategy return the
truncations of their untruncated boot instants; the two results are equal when
the instants lie in the same whole second, and when the instants differ by
less than one second the results are equal or exactly one second apart. -/
theorem procUptime_stability (h1 h2 : Host) (w1 w2 : World)
    (f1 rest1 f2 rest2 : GoString) (x1 x2 : Float64)
    (hf1 : ' ' ∉ f1) (hf2 : ' ' ∉ f2)
    (hr1 : h1.readFile "/proc/uptime" = .ok (f1 ++ [' '] ++ rest1))
    (hr2 : h2.readFile "/proc/uptime" = .ok (f2 ++ [' '] ++ rest2))
    (hp1 : h1.parseFloat f1 = .ok x1) (hp2 : h2.parseFloat f2 = .ok x2) :
    (getBootTimeWithProcUptime h1 w1).1 = ((bootInstant h1 w1 x1).Truncate Second, none) ∧
    (getBootTimeWithProcUptime h2 w2).1 = ((bootInstant h2 w2 x2).Truncate Second, none) ∧
    ((bootInstant h1 w1 x1).nanos / 1000000000 = (bootInstant h2 w2 x2).nanos / 1000000000 →
      (getBootTimeWithProcUptime h1 w1).1.1 = (getBootTimeWithProcUptime h2 w2).1.1) ∧
    ((bootInstant h1 w1 x1).nanos - (bootInstant h2 w2 x2).nanos < 1000000000 →
      (bootInstant h2 w2 x2).nanos - (bootInstant h1 w1 x1).nanos < 1000000000 →
      (getBootTimeWithProcUptime h1 w1).1.1.nanos = (getBootTimeWithProcUptime h2 w2).1.1.nanos ∨
      (getBootTimeWithProcUptime h1 w1).1.1.nanos =
        (getBootTimeWithProcUptime h2 w2).1.1.nanos + 1000000000 ∨
      (getBootTimeWithProcUptime h2 w2).1.1.nanos =
        (getBootTimeWithProcUptime h1 w1).1.1.nanos + 1000000000) := by
  have e1 := procUptime_ok h1 w1 f1 rest1 x1 (by simpa using hr1) hf1 hp1
  have e2 := procUptime_ok h2 w2 f2 rest2 x2 (by simpa using hr2) hf2 hp2
  rw [e1, e2]
  refine ⟨rfl, rfl, ?_, ?_⟩
  · intro hq
    apply Time.eq_of_nanos
    show ((bootInstant h1 w1 x1).Truncate Second).nanos =
      ((bootInstant h2 w2 x2).Truncate Second).nanos
    rw [Truncate_Second_nanos, Truncate_Second_nanos]
    omega
  · intro ha hb
    show ((bootInstant h1 w1 x1).Truncate Second).nanos =
        ((bootInstant h2 w2 x2).Truncate Second).nanos ∨
      ((bootInstant h1 w1 x1).Truncate Second).nanos =
        ((bootInstant h2 w2 x2).Truncate Second).nanos + 1000000000 ∨
      ((bootInstant h2 w2 x2).Truncate Second).nanos =
        ((bootInstant h1 w1 x1).Truncate Second).nanos + 1000000000
    rw [Truncate_Second_nanos, Truncate_Second_nanos]
    omega

/-- Instance of the amended C10 at two runs whose instants are 10 milliseconds
apart: the results are one second apart. -/
theorem procUptime_stability_witness :
    (getBootTimeWithProcUptime jitterHostA World.init).1 =
      ((bootInstant jitterHostA World.init (Float64.ofRat false 10041 100)).Truncate Second,
        none) ∧
    (getBootTimeWithProcUptime jitterHostB World.init).1.1.nanos =
      (getBootTimeWithProcUptime jitterHostA World.init).1.1.nanos + 1000000000 :=
  ⟨(procUptime_stability jitterHostA jitterHostB World.init World.init
      "100.41".toList "200.00\n".toList "101.40".toList "201.90\n".toList
      (Float64.ofRat false 10041 100) (Float64.ofRat false 10140 100)
      (by decide) (by decide) rfl rfl rfl rfl).1,
    by decide⟩

end BootTime
